import Mathlib

/-!
Verification development for the socket_channel repository.

The wire text is modelled as a `List Char` (the sequence of Unicode scalar
values of a Rust `String`).  Rust `String::len` and byte-indexed slicing are
modelled through an explicit UTF-8 byte-length function and byte-offset
slicing functions that return `none` exactly when Rust slicing would panic
on a non-character boundary.
-/

/-- UTF-8 encoded length in bytes of one character (mirrors the encoding used
by Rust `str`). -/
def utf8Len (c : Char) : Nat :=
  if c.toNat < 128 then 1
  else if c.toNat < 2048 then 2
  else if c.toNat < 65536 then 3
  else 4

/-- Byte length of a text, the model of Rust `String::len`. -/
def byteLen : List Char → Nat
  | [] => 0
  | c :: cs => utf8Len c + byteLen cs

/-- Model of taking the first `n` BYTES of a text: returns the characters
whose encodings fill exactly `n` bytes, and `none` (a Rust slicing panic)
when `n` is not a character boundary or exceeds the text. -/
def byteTake (t : List Char) (n : Nat) : Option (List Char) :=
  if n = 0 then some []
  else
    match t with
    | [] => none
    | c :: cs =>
      if utf8Len c ≤ n then (byteTake cs (n - utf8Len c)).map (fun s => c :: s)
      else none

/-- Model of dropping the first `n` BYTES of a text; `none` is a Rust slicing
panic (non boundary or out of range). -/
def byteDrop (t : List Char) (n : Nat) : Option (List Char) :=
  if n = 0 then some t
  else
    match t with
    | [] => none
    | c :: cs =>
      if utf8Len c ≤ n then byteDrop cs (n - utf8Len c)
      else none

/-- Model of the Rust byte-indexed slice `&text[a..b]`; `none` models the
panic on a non-character boundary. -/
def byteSlice (t : List Char) (a b : Nat) : Option (List Char) :=
  (byteDrop t a).bind (fun u => byteTake u (b - a))

/-- Model of Rust `char::is_whitespace` (the Unicode White_Space property). -/
def isRustWhitespace (c : Char) : Bool :=
  ([9, 10, 11, 12, 13, 32, 133, 160, 5760,
    8192, 8193, 8194, 8195, 8196, 8197, 8198, 8199, 8200, 8201, 8202,
    8232, 8233, 8239, 8287, 12288] : List Nat).contains c.toNat

/-- JSON-level whitespace as accepted by serde_json between tokens. -/
def isJsonWs (c : Char) : Bool :=
  c = ' ' || c = Char.ofNat 9 || c = Char.ofNat 10 || c = Char.ofNat 13

/-- Hexadecimal digit characters, lower case. -/
def hexDigit (n : Nat) : Char :=
  if n < 10 then Char.ofNat (48 + n) else Char.ofNat (87 + n)

/-- Fixed-width big-endian hexadecimal rendering of a natural number. -/
def toHex : Nat → Nat → List Char
  | 0, _ => []
  | w + 1, v => toHex w (v / 16) ++ [hexDigit (v % 16)]

/-- Value of one hexadecimal digit character, if any. -/
def fromHexDigit (c : Char) : Option Nat :=
  if '0' ≤ c ∧ c ≤ '9' then some (c.toNat - 48)
  else if 'a' ≤ c ∧ c ≤ 'f' then some (c.toNat - 87)
  else if 'A' ≤ c ∧ c ≤ 'F' then some (c.toNat - 55)
  else none

/-- Accumulate a list of hexadecimal digit characters into a number. -/
def parseHexList (s : List Char) : Option Nat :=
  s.foldlM (fun acc c => (fromHexDigit c).map (fun d => acc * 16 + d)) 0

/-- Model of the JSON value type handled by the external serde_json
collaborator, restricted to integral numbers (the protocol in this
repository never relies on fractional numbers). -/
inductive Json where
  | null
  | bool (b : Bool)
  | num (n : Int)
  | str (s : List Char)
  | arr (elems : List Json)
  | obj (members : List (List Char × Json))

/-- Escaping of one character inside a serialized JSON string. -/
def escapeChar (c : Char) : List Char :=
  if c = '"' then [Char.ofNat 92, '"']
  else if c = Char.ofNat 92 then [Char.ofNat 92, Char.ofNat 92]
  else if c = Char.ofNat 10 then [Char.ofNat 92, 'n']
  else if c = Char.ofNat 9 then [Char.ofNat 92, 't']
  else if c = Char.ofNat 13 then [Char.ofNat 92, 'r']
  else if c.toNat < 32 then [Char.ofNat 92, 'u'] ++ toHex 4 c.toNat
  else [c]

/-- Escaping of a whole JSON string body. -/
def escapeString (s : List Char) : List Char :=
  s.foldr (fun c acc => escapeChar c ++ acc) []

mutual

/-- Modelled from the external serde_json collaborator: compact
serialization, as produced by serde_json to_string. -/
def serJson : Json → List Char
  | Json.null => ("null".toList)
  | Json.bool true => ("true".toList)
  | Json.bool false => ("false".toList)
  | Json.num n => (toString n).toList
  | Json.str s => '"' :: (escapeString s ++ ['"'])
  | Json.arr xs => '[' :: (serArr xs ++ [']'])
  | Json.obj ms => Char.ofNat 123 :: (serObj ms ++ [Char.ofNat 125])

/-- Comma separated serialization of array elements. -/
def serArr : List Json → List Char
  | [] => []
  | [x] => serJson x
  | x :: y :: xs => serJson x ++ ',' :: serArr (y :: xs)

/-- Comma separated serialization of object members. -/
def serObj : List (List Char × Json) → List Char
  | [] => []
  | [(k, v)] => '"' :: (escapeString k ++ '"' :: ':' :: serJson v)
  | (k, v) :: m :: ms =>
    ('"' :: (escapeString k ++ '"' :: ':' :: serJson v)) ++ ',' :: serObj (m :: ms)

end

/-- Unescaping of a single-character JSON escape. -/
def unescape (c : Char) : Option Char :=
  if c = '"' then some '"'
  else if c = Char.ofNat 92 then some (Char.ofNat 92)
  else if c = '/' then some '/'
  else if c = 'n' then some (Char.ofNat 10)
  else if c = 't' then some (Char.ofNat 9)
  else if c = 'r' then some (Char.ofNat 13)
  else if c = 'b' then some (Char.ofNat 8)
  else if c = 'f' then some (Char.ofNat 12)
  else none

/-- Parse the body of a JSON string after the opening quote, returning the
decoded content and the remainder after the closing quote. -/
def parseStringBody : List Char → Option (List Char × List Char)
  | [] => none
  | c :: rest =>
    if c = '"' then some ([], rest)
    else if c = Char.ofNat 92 then
      match rest with
      | [] => none
      | e :: rest2 =>
        if e = 'u' then
          match rest2 with
          | a :: b :: c2 :: d :: rest3 =>
            match fromHexDigit a, fromHexDigit b, fromHexDigit c2, fromHexDigit d with
            | some x1, some x2, some x3, some x4 =>
              (parseStringBody rest3).map
                (fun r => (Char.ofNat (((x1 * 16 + x2) * 16 + x3) * 16 + x4) :: r.1, r.2))
            | _, _, _, _ => none
          | _ => none
        else
          match unescape e with
          | some u => (parseStringBody rest2).map (fun r => (u :: r.1, r.2))
          | none => none
    else (parseStringBody rest).map (fun r => (c :: r.1, r.2))

/-- Decimal digit value of a character, if any. -/
def digitVal (c : Char) : Option Nat :=
  if '0' ≤ c ∧ c ≤ '9' then some (c.toNat - 48) else none

/-- Longest leading run of decimal digits. -/
def takeDigits : List Char → List Nat × List Char
  | [] => ([], [])
  | c :: rest =>
    match digitVal c with
    | some d => let r := takeDigits rest; (d :: r.1, r.2)
    | none => ([], c :: rest)

/-- Parse a nonempty run of decimal digits as a natural number. -/
def parseNatNum (s : List Char) : Option (Nat × List Char) :=
  let p := takeDigits s
  if p.1 = [] then none
  else some (p.1.foldl (fun a d => a * 10 + d) 0, p.2)

/-- Parse an optionally signed integral JSON number. -/
def parseNumber (s : List Char) : Option (Json × List Char) :=
  match s with
  | '-' :: rest => (parseNatNum rest).map (fun r => (Json.num (-(r.1 : Int)), r.2))
  | _ => (parseNatNum s).map (fun r => (Json.num (r.1 : Int), r.2))

mutual

/-- Modelled from the external serde_json collaborator: recursive-descent
parse of one JSON value, fueled to make the recursion structural. -/
def parseValue : Nat → List Char → Option (Json × List Char)
  | 0, _ => none
  | fuel + 1, s =>
    match s with
    | [] => none
    | c :: rest =>
      if c = 'n' then
        if ("ull".toList).isPrefixOf rest then some (Json.null, rest.drop 3) else none
      else if c = 't' then
        if ("rue".toList).isPrefixOf rest then some (Json.bool true, rest.drop 3) else none
      else if c = 'f' then
        if ("alse".toList).isPrefixOf rest then some (Json.bool false, rest.drop 4) else none
      else if c = '"' then
        (parseStringBody rest).map (fun r => (Json.str r.1, r.2))
      else if c = '[' then
        match rest.dropWhile isJsonWs with
        | ']' :: r2 => some (Json.arr [], r2)
        | r1 => (parseElems fuel r1).map (fun r => (Json.arr r.1, r.2))
      else if c = Char.ofNat 123 then
        match rest.dropWhile isJsonWs with
        | c2 :: r2 =>
          if c2 = Char.ofNat 125 then some (Json.obj [], r2)
          else (parseMembers fuel (c2 :: r2)).map (fun r => (Json.obj r.1, r.2))
        | [] => none
      else if c = '-' then parseNumber (c :: rest)
      else if (digitVal c).isSome then parseNumber (c :: rest)
      else none

/-- Parse the elements of a nonempty JSON array after the opening bracket. -/
def parseElems : Nat → List Char → Option (List Json × List Char)
  | 0, _ => none
  | fuel + 1, s =>
    match parseValue fuel s with
    | none => none
    | some (v, rest) =>
      match rest.dropWhile isJsonWs with
      | ',' :: r2 => (parseElems fuel (r2.dropWhile isJsonWs)).map (fun r => (v :: r.1, r.2))
      | ']' :: r2 => some ([v], r2)
      | _ => none

/-- Parse the members of a nonempty JSON object after the opening brace. -/
def parseMembers : Nat → List Char → Option (List (List Char × Json) × List Char)
  | 0, _ => none
  | fuel + 1, s =>
    match s with
    | '"' :: rest =>
      match parseStringBody rest with
      | none => none
      | some (key, r1) =>
        match r1.dropWhile isJsonWs with
        | ':' :: r2 =>
          match parseValue fuel (r2.dropWhile isJsonWs) with
          | none => none
          | some (v, r3) =>
            match r3.dropWhile isJsonWs with
            | ',' :: r4 =>
              (parseMembers fuel (r4.dropWhile isJsonWs)).map (fun r => ((key, v) :: r.1, r.2))
            | c4 :: r4 =>
              if c4 = Char.ofNat 125 then some ([(key, v)], r4) else none
            | _ => none
        | _ => none
    | _ => none

end

/-- Modelled from the external serde_json collaborator: serde_json from_str
followed by the .ok() conversion used in the source, so a parse failure is
`none`.  The whole input, up to trailing whitespace, must be one value. -/
def from_str (s : List Char) : Option Json :=
  match parseValue (2 * s.length + 2) (s.dropWhile isJsonWs) with
  | some (v, rest) => if rest.dropWhile isJsonWs = [] then some v else none
  | none => none

/-- Model of the external 128-bit identifier collaborator (the uuid crate). -/
structure Uuid where
  val : Nat
deriving DecidableEq

/-- Modelled from the external uuid crate: Uuid::parse_str on the canonical
hyphenated textual form 8-4-4-4-12. -/
def uuidParseStr (s : List Char) : Option Uuid :=
  if s.length = 36 ∧ s.get? 8 = some '-' ∧ s.get? 13 = some '-' ∧
     s.get? 18 = some '-' ∧ s.get? 23 = some '-' then
    (parseHexList ((s.take 8) ++ ((s.drop 9).take 4) ++ ((s.drop 14).take 4) ++
      ((s.drop 19).take 4) ++ (s.drop 24))).map Uuid.mk
  else none

/-- Modelled from the external uuid crate: the lower-case hyphenated
rendering produced by Uuid::to_string. -/
def uuidToString (u : Uuid) : List Char :=
  let d := toHex 32 u.val
  (d.take 8) ++ '-' :: ((d.drop 8).take 4) ++ '-' :: ((d.drop 12).take 4) ++
    '-' :: ((d.drop 16).take 4) ++ '-' :: (d.drop 20)

/-! MessageCodec: shallow embedding of src/socket_message.rs. -/

/-- The two parse-time errors of the codec (SocketMessageError). -/
inductive SocketMessageError where
  | EmptyPrefixNotAllowed
  | ExpectedClosingContextParen
deriving DecidableEq

/-- The decoded wire unit (SocketMessage): the original text plus the spans
recorded by the parser or the builder. -/
structure SocketMessage where
  text : List Char
  prefix_end : Nat
  context_range : Option (Nat × Nat)
  body_start : Option Nat
deriving DecidableEq

/-- The character loop of SocketMessage::parse.  The four accumulators are
the mutable locals prefix_end, context_start, context_end and body_start of
the source; `index` advances once per CHARACTER, exactly as in the source. -/
def scan : List Char → Nat → Option Nat → Option Nat → Option Nat → Option Nat →
    Option Nat × Option Nat × Option Nat × Option Nat
  | [], _, pe, cs, ce, bs => (pe, cs, ce, bs)
  | c :: rest, index, none, cs, ce, bs =>
      scan rest (index + 1) (if c = '(' then some index else none) cs ce bs
  | c :: rest, index, some pe, none, ce, bs =>
      scan rest (index + 1) (some pe) (some index) (if c = ')' then some index else ce) bs
  | c :: rest, index, some pe, some cs, none, bs =>
      scan rest (index + 1) (some pe) (some cs) (if c = ')' then some index else none) bs
  | c :: rest, index, some pe, some cs, some ce, none =>
      if isRustWhitespace c then scan rest (index + 1) (some pe) (some cs) (some ce) none
      else (some pe, some cs, some ce, some index)
  | _ :: rest, index, some pe, some cs, some ce, some bs =>
      scan rest (index + 1) (some pe) (some cs) (some ce) (some bs)

/-- SocketMessage::parse.  Note the char-vs-byte mismatch inherited from the
source: the recorded indices count characters, while the fallback
`unwrap_or(text.len())` and all later slicing are byte based. -/
def parse (text : List Char) : Except SocketMessageError SocketMessage :=
  match scan text 0 none none none none with
  | (pe, cs, ce, bs) =>
    let prefix_end := pe.getD (byteLen text)
    if prefix_end = 0 then Except.error SocketMessageError.EmptyPrefixNotAllowed
    else
      match cs with
      | some cstart =>
        match ce with
        | some cend => Except.ok ⟨text, prefix_end, some (cstart, cend), bs⟩
        | none => Except.error SocketMessageError.ExpectedClosingContextParen
      | none => Except.ok ⟨text, prefix_end, none, bs⟩

/-- SocketMessage::get_prefix, the byte slice text[0..prefix_end]; `none`
models the Rust panic on a non-character boundary. -/
def getPrefixChars (m : SocketMessage) : Option (List Char) :=
  byteSlice m.text 0 m.prefix_end

/-- SocketMessage::get_context; the outer `none` models a slicing panic,
`some none` is the Rust `None` result (no context, or an empty span). -/
def getContext (m : SocketMessage) : Option (Option (List Char)) :=
  match m.context_range with
  | some r => if r.1 = r.2 then some none else (byteSlice m.text r.1 r.2).map some
  | none => some none

/-- SocketMessage::get_body; the outer `none` models a slicing panic,
`some none` is the Rust `None` (no body text, or a failed JSON parse). -/
def getBody (m : SocketMessage) : Option (Option Json) :=
  match m.body_start with
  | none => some none
  | some i => (byteSlice m.text i (byteLen m.text)).map from_str

/-- The assembling core of SocketMessageBuilder::build: the builder fields
are `pre` (set by new), the optional context and the optional body, and all
recorded indices are BYTE positions of the assembled text, exactly as
`text.len()` returns them in the source. -/
def buildMsg (pre : List Char) (context : Option (List Char)) (body : Option Json) :
    SocketMessage :=
  let prefix_end := byteLen pre
  let withCtx : List Char × Option (Nat × Nat) :=
    match context with
    | some ctx =>
      let text1 := pre ++ ['(']
      let context_start := byteLen text1
      let text2 := text1 ++ ctx
      (text2 ++ [')'], some (context_start, byteLen text2))
    | none => (pre, none)
  let withBody : List Char × Option Nat :=
    match body with
    | some b =>
      let text4 := withCtx.1 ++ [' ']
      (text4 ++ serJson b, some (byteLen text4))
    | none => (withCtx.1, none)
  ⟨withBody.1, prefix_end, withCtx.2, withBody.2⟩

/-- SocketMessageBuilder::build: the source constructs the message and wraps
it in Ok, so the Except layer is always `ok`. -/
def build (pre : List Char) (context : Option (List Char)) (body : Option Json) :
    Except SocketMessageError SocketMessage :=
  Except.ok (buildMsg pre context body)

/-- SocketMessageBuilder::build_string. -/
def buildString (pre : List Char) (context : Option (List Char)) (body : Option Json) :
    Except SocketMessageError (List Char) :=
  (build pre context body).map SocketMessage.text

/-! Session: shallow embedding of src/mod.rs. -/

/-- ConnectionDetails captured at upgrade time; the HashMap of query
parameters is modelled as an association list. -/
structure ConnectionDetails where
  path : List Char
  query_params : List (List Char × List Char)

/-- The Event union produced by a session. -/
inductive Event where
  | Connect (details : ConnectionDetails)
  | Update (value : Json)

/-- The mutable state of a Connection.  The socket endpoint is not a field:
reads are modelled as an explicit stream argument and writes as an explicit
action trace, so the state carries exactly the three mutable data fields. -/
structure Connection where
  connection_details : Option ConnectionDetails
  last_value : Option Json
  client_pin : Option Uuid

/-- Inbound frames as classified by the match in next_socket_event: text,
ping, pong, close, and the catch-all arm for any other frame type. -/
inductive Message where
  | Text (text : List Char)
  | Ping
  | Pong
  | Close
  | Binary
deriving DecidableEq

/-- One result of socket.next(): a frame or a transport error.  The end of
the stream (Rust None) is the end of the list. -/
inductive SocketRead where
  | frame (m : Message)
  | readErr
deriving DecidableEq

/-- Observable socket effects: writing a text frame, and closing with a
reason (Connection::close sends a normal-closure frame with the reason). -/
inductive SocketAction where
  | sendText (text : List Char)
  | close (reason : List Char)
deriving DecidableEq

/-- Single quote character, used inside some close reasons. -/
def sqChar : Char := Char.ofNat 39

def inactivityReason : List Char :=
  ("Connection closed due to inactivity. When another operation is necessary, reconnect".toList)

def errorParsingReason : List Char := ("Error parsing incoming message".toList)

def failedParseReason : List Char := ("Failed to parse socket message".toList)

def invalidMessageReason : List Char := ("Received invalid message".toList)

def uuidReason : List Char :=
  ("Expected to receive a valid UUID a context to ".toList) ++
    sqChar :: ("event".toList) ++ sqChar :: (" message".toList)

def bodyReason : List Char :=
  ("Expected to receive JSON body with ".toList) ++
    sqChar :: ("event".toList) ++ sqChar :: (" message".toList)

def invalidPrefixReason (pfx : List Char) : List Char :=
  ("Invalid message prefix: ".toList) ++ pfx ++
    (". Expected ".toList) ++ sqChar :: ("sync".toList) ++ sqChar :: (" or ".toList) ++
    sqChar :: ("event".toList) ++ [sqChar]

def syncChars : List Char := ("sync".toList)

def eventChars : List Char := ("event".toList)

def modelChars : List Char := ("model".toList)

/-- The stringified pin of Connection::send: the hyphenated identifier, or
the empty string when no pin is set. -/
def pinString : Option Uuid → List Char
  | some pin => uuidToString pin
  | none => []

/-- Connection::send: builds the outbound model(...) message (the unwrap in
the source never fires because build always returns Ok), writes it
best-effort, then replaces last_value with the sent state. -/
def send (conn : Connection) (state : Json) : Connection × List SocketAction :=
  let pin_string := pinString conn.client_pin
  let message := buildMsg modelChars (some pin_string) (some state)
  ({ conn with last_value := some state }, [SocketAction.sendText message.text])

/-- The tail of the event arm of next_socket_event, after the pin has been
stored: a present body breaks out of the loop with the body, a missing body
closes the session.  The outer `none` models a slicing panic in get_body. -/
def afterPin (conn : Connection) (socket_message : SocketMessage)
    (rest : List SocketRead) :
    Option (Option Json × Connection × List SocketRead × List SocketAction) :=
  match getBody socket_message with
  | none => none
  | some (some body) => some (some body, conn, rest, [])
  | some none => some (none, conn, rest, [SocketAction.close bodyReason])

/-- The read loop of Connection::next_socket_event.  The result is `none`
for a panic (a byte-misaligned accessor slice); otherwise `some` of the
loop outcome: the body of a breaking event message (or `none` when the
session ends), the final connection state, the unread rest of the stream,
and the emitted socket actions in order. -/
def nextSocketEventLoop (conn : Connection) :
    List SocketRead →
    Option (Option Json × Connection × List SocketRead × List SocketAction)
  | [] => some (none, conn, [], [])
  | SocketRead.readErr :: rest =>
      some (none, conn, rest, [SocketAction.close errorParsingReason])
  | SocketRead.frame msg :: rest =>
    match msg with
    | Message.Ping => nextSocketEventLoop conn rest
    | Message.Pong => nextSocketEventLoop conn rest
    | Message.Close => some (none, conn, rest, [])
    | Message.Binary => some (none, conn, rest, [SocketAction.close invalidMessageReason])
    | Message.Text text =>
      match parse text with
      | Except.error _ => some (none, conn, rest, [SocketAction.close failedParseReason])
      | Except.ok socket_message =>
        match getPrefixChars socket_message with
        | none => none
        | some pfx =>
          if pfx = syncChars then
            match conn.last_value with
            | some model =>
              let sent := send { conn with last_value := none } model
              (nextSocketEventLoop sent.1 rest).map
                (fun r => (r.1, r.2.1, r.2.2.1, sent.2 ++ r.2.2.2))
            | none => nextSocketEventLoop conn rest
          else if pfx = eventChars then
            match getContext socket_message with
            | none => none
            | some (some context) =>
              match uuidParseStr context with
              | some uuid => afterPin { conn with client_pin := some uuid } socket_message rest
              | none => some (none, conn, rest, [SocketAction.close uuidReason])
            | some none => afterPin { conn with client_pin := none } socket_message rest
          else
            some (none, conn, rest, [SocketAction.close (invalidPrefixReason pfx)])

/-- Connection::next_socket_event: the one-shot take of the pending
connection details, then the read loop; a breaking body becomes Update. -/
def nextSocketEvent (conn : Connection) (stream : List SocketRead) :
    Option (Option Event × Connection × List SocketRead × List SocketAction) :=
  match conn.connection_details with
  | some details =>
      some (some (Event.Connect details), { conn with connection_details := none }, stream, [])
  | none =>
      (nextSocketEventLoop conn stream).map
        (fun r => (r.1.map Event.Update, r.2.1, r.2.2.1, r.2.2.2))

/-- Connection::next_event, exactly as written in the source: it returns
None immediately and never touches the socket or the connection state. -/
def nextEvent (conn : Connection) : Option Event × Connection :=
  (none, conn)

/-- Connection::next_event_with_timeout.  The select of the read future
against the timer is modelled by the boolean `timerFirst`: `false` is
Either::Left (the read completed first, its result is kept), `true` is
Either::Right (the timer fired first), after which the session is closed
with the inactivity reason and no event is returned. -/
def nextEventWithTimeout (timerFirst : Bool) (conn : Connection) :
    Option Event × Connection × List SocketAction :=
  let res : Option (Option Event × Connection) :=
    if timerFirst then none else some (nextEvent conn)
  match res with
  | some er => (er.1, er.2, [])
  | none => (none, conn, [SocketAction.close inactivityReason])

/-! Byte-level helper lemmas. -/

theorem utf8Len_pos (c : Char) : 1 ≤ utf8Len c := by
  simp only [utf8Len]
  split_ifs <;> omega

theorem byteLen_append (s r : List Char) : byteLen (s ++ r) = byteLen s + byteLen r := by
  induction s with
  | nil => simp [byteLen]
  | cons c cs ih => simp [byteLen, ih]; omega

theorem length_le_byteLen (s : List Char) : s.length ≤ byteLen s := by
  induction s with
  | nil => simp [byteLen]
  | cons c cs ih =>
    have := utf8Len_pos c
    simp only [List.length_cons, byteLen]
    omega

theorem ascii_byteLen (s : List Char) (h : ∀ c ∈ s, utf8Len c = 1) :
    byteLen s = s.length := by
  induction s with
  | nil => simp [byteLen]
  | cons c cs ih =>
    have hc : utf8Len c = 1 := h c (by simp)
    simp only [byteLen, List.length_cons, hc, ih (fun c hm => h c (by simp [hm]))]
    omega

theorem multibyte_byteLen (s : List Char) (c : Char) (hm : c ∈ s) (h2 : 2 ≤ utf8Len c) :
    s.length + 1 ≤ byteLen s := by
  induction s with
  | nil => simp at hm
  | cons d ds ih =>
    rcases List.mem_cons.mp hm with h | h
    · subst h
      have := length_le_byteLen ds
      simp only [byteLen, List.length_cons]
      omega
    · have := ih h
      have := utf8Len_pos d
      simp only [byteLen, List.length_cons]
      omega

theorem byteTake_some_byteLen (t : List Char) (n : Nat) (s : List Char)
    (h : byteTake t n = some s) : byteLen s = n := by
  induction t generalizing n s with
  | nil =>
    simp only [byteTake] at h
    split at h
    · simp only [Option.some.injEq] at h
      subst h
      simp [byteLen]
      omega
    · exact absurd h (by simp)
  | cons c cs ih =>
    simp only [byteTake] at h
    split at h
    · simp only [Option.some.injEq] at h
      subst h
      simp [byteLen]
      omega
    · split at h
      · rcases Option.map_eq_some'.mp h with ⟨s', hs', rfl⟩
        have := ih _ _ hs'
        simp only [byteLen]
        omega
      · exact absurd h (by simp)

theorem byteTake_zero (t : List Char) : byteTake t 0 = some [] := by
  unfold byteTake
  simp

theorem byteDrop_zero (t : List Char) : byteDrop t 0 = some t := by
  unfold byteDrop
  simp

theorem byteTake_append (s r : List Char) : byteTake (s ++ r) (byteLen s) = some s := by
  induction s with
  | nil => simp [byteTake_zero, byteLen]
  | cons c cs ih =>
    have hc := utf8Len_pos c
    have hne : ¬ (byteLen (c :: cs) = 0) := by simp only [byteLen]; omega
    have hle : utf8Len c ≤ byteLen (c :: cs) := by simp only [byteLen]; omega
    rw [List.cons_append, byteTake.eq_def]
    simp only [hne, if_false, hle, if_true]
    simp only [byteLen, Nat.add_sub_cancel_left, List.append_eq, ih, Option.map_some']

theorem byteTake_self (s : List Char) : byteTake s (byteLen s) = some s := by
  have := byteTake_append s []
  simpa using this

theorem byteDrop_append (s r : List Char) : byteDrop (s ++ r) (byteLen s) = some r := by
  induction s with
  | nil => simp [byteDrop_zero, byteLen]
  | cons c cs ih =>
    have hc := utf8Len_pos c
    have hne : ¬ (byteLen (c :: cs) = 0) := by simp only [byteLen]; omega
    have hle : utf8Len c ≤ byteLen (c :: cs) := by simp only [byteLen]; omega
    rw [List.cons_append, byteDrop.eq_def]
    simp only [hne, if_false, hle, if_true]
    simp only [byteLen, Nat.add_sub_cancel_left, List.append_eq, ih]

theorem byteSlice_some_byteLen (t : List Char) (a b : Nat) (s : List Char)
    (h : byteSlice t a b = some s) : byteLen s = b - a := by
  rcases Option.bind_eq_some.mp h with ⟨u, _, h2⟩
  exact byteTake_some_byteLen u (b - a) s h2

theorem byteSlice_zero (t : List Char) (n : Nat) : byteSlice t 0 n = byteTake t n := by
  simp [byteSlice, byteDrop_zero]

theorem byteSlice_append_exact (x m r : List Char) :
    byteSlice (x ++ (m ++ r)) (byteLen x) (byteLen x + byteLen m) = some m := by
  simp only [byteSlice, byteDrop_append, Option.some_bind, Nat.add_sub_cancel_left,
    byteTake_append]

/-! Scan-level helper lemmas: forward computation of the parse loop over a
structurally decomposed text. -/

theorem scan_skip_pre (seg : List Char) (rest : List Char) (i : Nat)
    (cs ce bs : Option Nat) (h : ∀ c ∈ seg, c ≠ '(') :
    scan (seg ++ rest) i none cs ce bs = scan rest (i + seg.length) none cs ce bs := by
  induction seg generalizing i with
  | nil => simp
  | cons c s ih =>
    have hc : ¬ (c = '(') := h c (by simp)
    rw [List.cons_append]
    simp only [scan, hc, if_false]
    rw [ih (i + 1) (fun d hd => h d (by simp [hd]))]
    congr 1
    simp
    omega

theorem scan_skip_ctx (seg : List Char) (rest : List Char) (i : Nat)
    (pe cs : Nat) (bs : Option Nat) (h : ∀ c ∈ seg, c ≠ ')') :
    scan (seg ++ rest) i (some pe) (some cs) none bs =
      scan rest (i + seg.length) (some pe) (some cs) none bs := by
  induction seg generalizing i with
  | nil => simp
  | cons c s ih =>
    have hc : ¬ (c = ')') := h c (by simp)
    rw [List.cons_append]
    simp only [scan, hc, if_false]
    rw [ih (i + 1) (fun d hd => h d (by simp [hd]))]
    congr 1
    simp
    omega

theorem scan_skip_ws (seg : List Char) (rest : List Char) (i : Nat)
    (pe cs ce : Nat) (h : ∀ c ∈ seg, isRustWhitespace c = true) :
    scan (seg ++ rest) i (some pe) (some cs) (some ce) none =
      scan rest (i + seg.length) (some pe) (some cs) (some ce) none := by
  induction seg generalizing i with
  | nil => simp
  | cons c s ih =>
    have hc : isRustWhitespace c = true := h c (by simp)
    rw [List.cons_append]
    simp only [scan, hc, if_true]
    rw [ih (i + 1) (fun d hd => h d (by simp [hd]))]
    congr 1
    simp
    omega

theorem scan_pres (rest : List Char) (i : Nat) (pe cs ce : Nat) (bs : Option Nat) :
    ∃ bs', scan rest i (some pe) (some cs) (some ce) bs =
      (some pe, some cs, some ce, bs') := by
  induction rest generalizing i bs with
  | nil => exact ⟨bs, rfl⟩
  | cons c r ih =>
    cases bs with
    | none =>
      by_cases hw : isRustWhitespace c
      · simp only [scan, hw, if_true]
        exact ih (i + 1) none
      · simp only [scan, hw, if_false]
        exact ⟨some i, rfl⟩
    | some b =>
      simp only [scan]
      exact ih (i + 1) (some b)

theorem scan_open (rest : List Char) (i : Nat) (cs ce bs : Option Nat) :
    scan ('(' :: rest) i none cs ce bs = scan rest (i + 1) (some i) cs ce bs := by
  simp [scan]

theorem scan_ctx_close (rest : List Char) (i pe : Nat) (ce bs : Option Nat) :
    scan (')' :: rest) i (some pe) none ce bs =
      scan rest (i + 1) (some pe) (some i) (some i) bs := by
  simp [scan]

theorem scan_ctx_other (c : Char) (hc : c ≠ ')') (rest : List Char) (i pe : Nat)
    (ce bs : Option Nat) :
    scan (c :: rest) i (some pe) none ce bs =
      scan rest (i + 1) (some pe) (some i) ce bs := by
  simp [scan, hc]

theorem scan_close (rest : List Char) (i pe cs : Nat) (bs : Option Nat) :
    scan (')' :: rest) i (some pe) (some cs) none bs =
      scan rest (i + 1) (some pe) (some cs) (some i) bs := by
  simp [scan]

theorem scan_body (c : Char) (hc : isRustWhitespace c = false) (rest : List Char)
    (i pe cs ce : Nat) :
    scan (c :: rest) i (some pe) (some cs) (some ce) none =
      (some pe, some cs, some ce, some i) := by
  simp [scan, hc]

/-- Character index of the body start recorded by the scan on a structured
text, `none` when there is no body. -/
def bodyIdx (P C W B : List Char) : Option Nat :=
  match B with
  | [] => none
  | _ :: _ => some (P.length + 2 + C.length + W.length)

/-- Outcome of the scan on a fully structured text with a closed context:
all four indices are determined, counted in characters. -/
theorem scan_structured (P C W B : List Char)
    (hP : ∀ c ∈ P, c ≠ '(') (hC : ∀ c ∈ C, c ≠ ')')
    (hW : ∀ c ∈ W, isRustWhitespace c = true)
    (hB : ∀ c t, B = c :: t → isRustWhitespace c = false) :
    scan (P ++ '(' :: (C ++ ')' :: (W ++ B))) 0 none none none none =
      (some P.length, some (P.length + 1), some (P.length + 1 + C.length),
        bodyIdx P C W B) := by
  rw [scan_skip_pre P _ 0 none none none hP, Nat.zero_add, scan_open]
  cases C with
  | nil =>
    rw [List.nil_append, scan_ctx_close]
    rw [scan_skip_ws W B _ _ _ _ hW]
    cases B with
    | nil =>
      simp [scan, bodyIdx]
    | cons b bt =>
      rw [scan_body b (hB b bt rfl)]
      simp only [bodyIdx, Prod.mk.injEq, Option.some.injEq, List.length_nil, and_true,
        true_and, eq_self_iff_true]
  | cons c0 C' =>
    rw [List.cons_append, scan_ctx_other c0 (hC c0 (by simp)) _ _ _]
    rw [scan_skip_ctx C' _ (P.length + 1 + 1) _ _ _ (fun d hd => hC d (by simp [hd]))]
    rw [scan_close]
    rw [scan_skip_ws W B _ _ _ _ hW]
    cases B with
    | nil =>
      simp only [scan, bodyIdx, Prod.mk.injEq, Option.some.injEq, List.length_cons,
        and_true, true_and, eq_self_iff_true]
      omega
    | cons b bt =>
      rw [scan_body b (hB b bt rfl)]
      simp only [bodyIdx, Prod.mk.injEq, Option.some.injEq, List.length_cons, and_true,
        true_and, eq_self_iff_true]
      omega

/-- Outcome of the scan on a text with a closed context and an arbitrary
remainder: the first three indices are determined. -/
theorem scan_structured_tail (P C R : List Char)
    (hP : ∀ c ∈ P, c ≠ '(') (hC : ∀ c ∈ C, c ≠ ')') :
    ∃ bs, scan (P ++ '(' :: (C ++ ')' :: R)) 0 none none none none =
      (some P.length, some (P.length + 1), some (P.length + 1 + C.length), bs) := by
  rw [scan_skip_pre P _ 0 none none none hP, Nat.zero_add, scan_open]
  cases C with
  | nil =>
    rw [List.nil_append, scan_ctx_close]
    have h := scan_pres R (P.length + 1 + 1) P.length (P.length + 1) (P.length + 1) none
    rcases h with ⟨bs, hbs⟩
    refine ⟨bs, ?_⟩
    rw [hbs]
    simp
  | cons c0 C' =>
    rw [List.cons_append, scan_ctx_other c0 (hC c0 (by simp)) _ _ _]
    rw [scan_skip_ctx C' _ (P.length + 1 + 1) _ _ _ (fun d hd => hC d (by simp [hd]))]
    rw [scan_close]
    have h := scan_pres R (P.length + 1 + 1 + C'.length + 1) P.length (P.length + 1)
      (P.length + 1 + 1 + C'.length) none
    rcases h with ⟨bs, hbs⟩
    refine ⟨bs, ?_⟩
    rw [hbs]
    simp only [Prod.mk.injEq, Option.some.injEq, List.length_cons, and_true, true_and,
      eq_self_iff_true]
    omega

/-- Outcome of the scan on a text with an unterminated context. -/
theorem scan_unterminated (P R : List Char) (r0 : Char)
    (hP : ∀ c ∈ P, c ≠ '(') (hR : ∀ c ∈ r0 :: R, c ≠ ')') :
    scan (P ++ '(' :: r0 :: R) 0 none none none none =
      (some P.length, some (P.length + 1), none, none) := by
  rw [scan_skip_pre P _ 0 none none none hP, Nat.zero_add, scan_open]
  rw [scan_ctx_other r0 (hR r0 (by simp)) _ _ _]
  have h := scan_skip_ctx R [] (P.length + 1 + 1) P.length (P.length + 1) none
    (fun d hd => hR d (by simp [hd]))
  simpa using h

/-- Outcome of the scan on a text with no parenthesis at all. -/
theorem scan_noparen (P : List Char) (hP : ∀ c ∈ P, c ≠ '(') :
    scan P 0 none none none none = (none, none, none, none) := by
  have h := scan_skip_pre P [] 0 none none none hP
  simpa using h

/-- Outcome of the scan on a text that ends at its opening parenthesis. -/
theorem scan_trailing_paren (P : List Char) (hP : ∀ c ∈ P, c ≠ '(') :
    scan (P ++ ['(']) 0 none none none none = (some P.length, none, none, none) := by
  rw [scan_skip_pre P _ 0 none none none hP]
  simp [scan]

/-! Parse-level corollaries of the scan lemmas. -/

theorem parse_structured (P C W B : List Char)
    (hP : ∀ c ∈ P, c ≠ '(') (hC : ∀ c ∈ C, c ≠ ')')
    (hW : ∀ c ∈ W, isRustWhitespace c = true)
    (hB : ∀ c t, B = c :: t → isRustWhitespace c = false)
    (hPne : P ≠ []) :
    parse (P ++ '(' :: (C ++ ')' :: (W ++ B))) =
      Except.ok ⟨P ++ '(' :: (C ++ ')' :: (W ++ B)), P.length,
        some (P.length + 1, P.length + 1 + C.length), bodyIdx P C W B⟩ := by
  have hne : ¬ (P.length = 0) := by
    simpa using fun h => hPne (List.length_eq_zero.mp h)
  unfold parse
  rw [scan_structured P C W B hP hC hW hB]
  simp [hne]

theorem parse_structured_tail (P C R : List Char)
    (hP : ∀ c ∈ P, c ≠ '(') (hC : ∀ c ∈ C, c ≠ ')') (hPne : P ≠ []) :
    ∃ bs, parse (P ++ '(' :: (C ++ ')' :: R)) =
      Except.ok ⟨P ++ '(' :: (C ++ ')' :: R), P.length,
        some (P.length + 1, P.length + 1 + C.length), bs⟩ := by
  have hne : ¬ (P.length = 0) := by
    simpa using fun h => hPne (List.length_eq_zero.mp h)
  rcases scan_structured_tail P C R hP hC with ⟨bs, hbs⟩
  refine ⟨bs, ?_⟩
  unfold parse
  rw [hbs]
  simp [hne]

theorem parse_noparen (P : List Char) (hP : ∀ c ∈ P, c ≠ '(') (hPne : P ≠ []) :
    parse P = Except.ok ⟨P, byteLen P, none, none⟩ := by
  have h1 : 1 ≤ P.length := by
    cases P with
    | nil => exact absurd rfl hPne
    | cons c cs => simp
  have hne : ¬ (byteLen P = 0) := by
    have := length_le_byteLen P
    omega
  unfold parse
  rw [scan_noparen P hP]
  simp [hne]

theorem parse_trailing_paren (P : List Char) (hP : ∀ c ∈ P, c ≠ '(') (hPne : P ≠ []) :
    parse (P ++ ['(']) = Except.ok ⟨P ++ ['('], P.length, none, none⟩ := by
  have hne : ¬ (P.length = 0) := by
    simpa using fun h => hPne (List.length_eq_zero.mp h)
  unfold parse
  rw [scan_trailing_paren P hP]
  simp [hne]

theorem parse_unterminated (P R : List Char) (r0 : Char)
    (hP : ∀ c ∈ P, c ≠ '(') (hR : ∀ c ∈ r0 :: R, c ≠ ')') :
    ∃ e, parse (P ++ '(' :: r0 :: R) = Except.error e := by
  unfold parse
  rw [scan_unterminated P R r0 hP hR]
  by_cases hz : P.length = 0
  · exact ⟨SocketMessageError.EmptyPrefixNotAllowed, by simp [hz]⟩
  · exact ⟨SocketMessageError.ExpectedClosingContextParen, by simp [hz]⟩

/-! Accessor computations. -/

theorem getPrefixChars_eq (m : SocketMessage) (P rest : List Char)
    (ht : m.text = P ++ rest) (hpe : m.prefix_end = byteLen P) :
    getPrefixChars m = some P := by
  simp [getPrefixChars, hpe, ht, byteSlice_zero, byteTake_append]

theorem getContext_eq (m : SocketMessage) (X C rest : List Char) (hC : C ≠ [])
    (ht : m.text = X ++ (C ++ rest))
    (hr : m.context_range = some (byteLen X, byteLen X + byteLen C)) :
    getContext m = some (some C) := by
  have h1 : 1 ≤ C.length := by
    cases C with
    | nil => exact absurd rfl hC
    | cons c cs => simp
  have hbl : 1 ≤ byteLen C := le_trans h1 (length_le_byteLen C)
  have hne : ¬ (byteLen X = byteLen X + byteLen C) := by omega
  simp [getContext, hr, ht, hne, byteSlice_append_exact]

theorem getContext_empty (m : SocketMessage) (a : Nat)
    (hr : m.context_range = some (a, a)) : getContext m = some none := by
  simp [getContext, hr]

/-- Context value that reparsing is expected to produce: an empty built
context is lossy and comes back as absent. -/
def expectedCtx : Option (List Char) → Option (List Char)
  | some C => if C = [] then none else some C
  | none => none

/-- Body suffix appended by the builder. -/
def builtBodyPart : Option Json → List Char
  | some b => ' ' :: serJson b
  | none => []

theorem buildMsg_text_ctx (P C : List Char) (body : Option Json) :
    (buildMsg P (some C) body).text = P ++ '(' :: (C ++ ')' :: builtBodyPart body) := by
  cases body <;> simp [buildMsg, builtBodyPart]

theorem buildMsg_text_noctx_nobody (P : List Char) :
    (buildMsg P none none).text = P := by
  simp [buildMsg]

theorem buildMsg_text_noctx_body (P : List Char) (b : Json) :
    (buildMsg P none (some b)).text = P ++ ' ' :: serJson b := by
  simp [buildMsg]

/-- Round trip of the codec on a build with a context present: the reparse
reproduces the prefix and the context (an empty context coming back as
absent), for single-byte texts that avoid the delimiter characters. -/
theorem build_parse_ctx (P C : List Char) (body : Option Json)
    (hPne : P ≠ []) (hPp : ∀ c ∈ P, c ≠ '(') (hPa : ∀ c ∈ P, utf8Len c = 1)
    (hCp : ∀ c ∈ C, c ≠ ')') (hCa : ∀ c ∈ C, utf8Len c = 1) :
    ∃ m, parse ((buildMsg P (some C) body).text) = Except.ok m ∧
      getPrefixChars m = some P ∧ getContext m = some (expectedCtx (some C)) := by
  rw [buildMsg_text_ctx]
  rcases parse_structured_tail P C (builtBodyPart body) hPp hCp hPne with ⟨bs, hok⟩
  refine ⟨_, hok, ?_, ?_⟩
  · refine getPrefixChars_eq _ P _ rfl ?_
    simp [ascii_byteLen P hPa]
  · by_cases hC : C = []
    · subst hC
      refine Eq.trans (getContext_empty _ (P.length + 1) ?_) (by simp [expectedCtx])
      simp
    · rw [show expectedCtx (some C) = some C from by simp [expectedCtx, hC]]
      refine getContext_eq _ (P ++ ['(']) C (')' :: builtBodyPart body) hC ?_ ?_
      · simp
      · have ha : byteLen (P ++ ['(']) = P.length + 1 := by
          simp [byteLen_append, ascii_byteLen P hPa, byteLen, utf8Len]
        have hc : byteLen C = C.length := ascii_byteLen C hCa
        simp [ha, hc]

/-- C3 (amended): for triples of a non-empty prefix, an optional context and
an optional JSON body, where prefix and context consist of single-byte
characters, the prefix contains no opening parenthesis, the context (when
present) contains no closing parenthesis, and a body is only present when a
context is present, parsing the text produced by the builder yields a
message whose prefix accessor returns the original prefix and whose context
accessor returns the original context, except that an empty context
round-trips to an absent one. -/
theorem c3_round_trip (P : List Char) (context : Option (List Char)) (body : Option Json)
    (hPne : P ≠ []) (hPp : ∀ c ∈ P, c ≠ '(') (hPa : ∀ c ∈ P, utf8Len c = 1)
    (hCtx : ∀ C, context = some C → (∀ c ∈ C, c ≠ ')') ∧ (∀ c ∈ C, utf8Len c = 1))
    (hNoCtx : context = none → body = none) :
    ∃ m, parse ((buildMsg P context body).text) = Except.ok m ∧
      getPrefixChars m = some P ∧ getContext m = some (expectedCtx context) := by
  cases context with
  | some C => exact build_parse_ctx P C body hPne hPp hPa (hCtx C rfl).1 (hCtx C rfl).2
  | none =>
    rw [hNoCtx rfl, buildMsg_text_noctx_nobody]
    refine ⟨_, parse_noparen P hPp hPne, ?_, ?_⟩
    · exact getPrefixChars_eq _ P [] (by simp) rfl
    · simp [getContext, expectedCtx]

/-- C3 counterexample: the triple with prefix a, no context and body 1 is a
valid input triple in the sense of the claim, yet reparsing the built text
a 1 returns the whole text as the prefix, not the original prefix. -/
theorem c3_counterexample :
    parse ((buildMsg ['a'] none (some (Json.num 1))).text) =
      Except.ok ⟨['a', ' ', '1'], 3, none, none⟩ ∧
    getPrefixChars ⟨['a', ' ', '1'], 3, none, none⟩ = some ['a', ' ', '1'] ∧
    some (['a', ' ', '1'] : List Char) ≠ some ['a'] :=
  ⟨rfl, rfl, by decide⟩

/-- C3 witness: the amended round trip evaluated on prefix hello with
context ab and no body. -/
theorem c3_witness :
    ∃ m, parse ((buildMsg ("hello".toList) (some ("ab".toList)) none).text) = Except.ok m ∧
      getPrefixChars m = some ("hello".toList) ∧
      getContext m = some (expectedCtx (some ("ab".toList))) :=
  c3_round_trip ("hello".toList) (some ("ab".toList)) none (by decide) (by decide) (by decide)
    (fun C hc => by
      injection hc with h
      subst h
      exact ⟨by decide, by decide⟩)
    (fun h => by simp at h)

theorem byteLen_structured (P C W B : List Char) :
    byteLen (P ++ '(' :: (C ++ ')' :: (W ++ B))) =
      byteLen P + 1 + byteLen C + 1 + byteLen W + byteLen B := by
  have h1 : utf8Len '(' = 1 := by decide
  have h2 : utf8Len ')' = 1 := by decide
  simp only [byteLen_append, byteLen, h1, h2]
  omega

/-- C4: the parser counts characters while all later slicing is byte based,
so any multi-byte character before a delimiter (the opening parenthesis, the
closing parenthesis, or the start of the body) makes parsing fail or makes
an accessor slice misaligned (a wrong span, or a panic modelled as none).
Stated in three parts: a structured text with a closed context, a text with
an unterminated context, and a text ending at its opening parenthesis. -/
theorem c4_char_byte_mismatch :
    (∀ P C W B : List Char, (∀ c ∈ P, c ≠ '(') → (∀ c ∈ C, c ≠ ')') →
      (∀ c ∈ W, isRustWhitespace c = true) →
      (∀ c t, B = c :: t → isRustWhitespace c = false) →
      ((∃ c ∈ P ++ C, 2 ≤ utf8Len c) ∨ (B ≠ [] ∧ ∃ c ∈ W, 2 ≤ utf8Len c)) →
      (∃ e, parse (P ++ '(' :: (C ++ ')' :: (W ++ B))) = Except.error e) ∨
      (∃ m, parse (P ++ '(' :: (C ++ ')' :: (W ++ B))) = Except.ok m ∧
        (getPrefixChars m ≠ some P ∨ getContext m ≠ some (expectedCtx (some C)) ∨
          ∃ i, m.body_start = some i ∧ byteSlice m.text i (byteLen m.text) ≠ some B))) ∧
    (∀ (P R : List Char) (r0 : Char), (∀ c ∈ P, c ≠ '(') → (∀ c ∈ r0 :: R, c ≠ ')') →
      ∃ e, parse (P ++ '(' :: r0 :: R) = Except.error e) ∧
    (∀ P : List Char, (∀ c ∈ P, c ≠ '(') → (∃ c ∈ P, 2 ≤ utf8Len c) →
      ∀ m, parse (P ++ ['(']) = Except.ok m → getPrefixChars m ≠ some P) := by
  refine ⟨?_, ?_, ?_⟩
  · intro P C W B hP hC hW hB hM
    by_cases hPne : P = []
    · left
      refine ⟨SocketMessageError.EmptyPrefixNotAllowed, ?_⟩
      unfold parse
      rw [scan_structured P C W B hP hC hW hB]
      simp [hPne]
    · right
      refine ⟨_, parse_structured P C W B hP hC hW hB hPne, ?_⟩
      by_cases hmbP : ∃ c ∈ P, 2 ≤ utf8Len c
      · left
        rcases hmbP with ⟨c, hc, h2⟩
        intro heq
        have hsl : byteSlice (P ++ '(' :: (C ++ ')' :: (W ++ B))) 0 P.length = some P := heq
        have hbl := byteSlice_some_byteLen _ _ _ _ hsl
        have hge := multibyte_byteLen P c hc h2
        omega
      · by_cases hmbC : ∃ c ∈ C, 2 ≤ utf8Len c
        · right; left
          rcases hmbC with ⟨c, hc, h2⟩
          have hCne : C ≠ [] := by
            intro h
            rw [h] at hc
            simp at hc
          have h1 : 1 ≤ C.length := by
            cases C with
            | nil => exact absurd rfl hCne
            | cons d ds => simp
          have hne : ¬ (P.length + 1 = P.length + 1 + C.length) := by omega
          rw [show expectedCtx (some C) = some C from by simp [expectedCtx, hCne]]
          simp only [getContext, hne, if_false]
          intro heq
          rcases Option.map_eq_some'.mp heq with ⟨x, hx, hxc⟩
          have hxC : x = C := by simpa using hxc
          have hbl := byteSlice_some_byteLen _ _ _ _ hx
          rw [hxC] at hbl
          have hge := multibyte_byteLen C c hc h2
          omega
        · have hBW : B ≠ [] ∧ ∃ c ∈ W, 2 ≤ utf8Len c := by
            rcases hM with h | h
            · exfalso
              rcases h with ⟨c, hc, h2⟩
              rcases List.mem_append.mp hc with hcp | hcc
              · exact hmbP ⟨c, hcp, h2⟩
              · exact hmbC ⟨c, hcc, h2⟩
            · exact h
          right; right
          rcases hBW with ⟨hBne, c, hcw, h2⟩
          cases B with
          | nil => exact absurd rfl hBne
          | cons b bt =>
            refine ⟨P.length + 2 + C.length + W.length, rfl, ?_⟩
            intro heq
            have hbl := byteSlice_some_byteLen _ _ _ _ heq
            have hPa : ∀ d ∈ P, utf8Len d = 1 := by
              intro d hd
              have := utf8Len_pos d
              have hn2 : ¬ (2 ≤ utf8Len d) := fun hx => hmbP ⟨d, hd, hx⟩
              omega
            have hCa : ∀ d ∈ C, utf8Len d = 1 := by
              intro d hd
              have := utf8Len_pos d
              have hn2 : ¬ (2 ≤ utf8Len d) := fun hx => hmbC ⟨d, hd, hx⟩
              omega
            have hPl := ascii_byteLen P hPa
            have hCl := ascii_byteLen C hCa
            have hWge := multibyte_byteLen W c hcw h2
            have htot := byteLen_structured P C W (b :: bt)
            simp only [htot] at hbl
            omega
  · intro P R r0 hP hR
    exact parse_unterminated P R r0 hP hR
  · intro P hP hmb m hok hpref
    rcases hmb with ⟨c, hc, h2⟩
    have hPne : P ≠ [] := by
      intro h
      rw [h] at hc
      simp at hc
    rw [parse_trailing_paren P hP hPne] at hok
    have hm : m = ⟨P ++ ['('], P.length, none, none⟩ := by
      injection hok with h
      exact h.symm
    subst hm
    have hsl : byteSlice (P ++ ['(']) 0 P.length = some P := hpref
    have hbl := byteSlice_some_byteLen _ _ _ _ hsl
    have hge := multibyte_byteLen P c hc h2
    omega

/-- C4 witness: the three parts evaluated on concrete inputs containing the
two-byte character U+00E9. -/
theorem c4_witness :
    ((∃ e, parse (['a', Char.ofNat 233] ++ '(' :: (['x'] ++ ')' :: ([] ++ []))) =
        Except.error e) ∨
      (∃ m, parse (['a', Char.ofNat 233] ++ '(' :: (['x'] ++ ')' :: ([] ++ []))) =
          Except.ok m ∧
        (getPrefixChars m ≠ some ['a', Char.ofNat 233] ∨
          getContext m ≠ some (expectedCtx (some ['x'])) ∨
          ∃ i, m.body_start = some i ∧
            byteSlice m.text i (byteLen m.text) ≠ some []))) ∧
    (∃ e, parse (['a'] ++ '(' :: 'x' :: []) = Except.error e) ∧
    (getPrefixChars ⟨['a', Char.ofNat 233, '('], 2, none, none⟩ ≠
      some ['a', Char.ofNat 233]) :=
  ⟨c4_char_byte_mismatch.1 ['a', Char.ofNat 233] ['x'] [] [] (by decide) (by decide)
      (by decide) (fun c t h => List.noConfusion h)
      (Or.inl ⟨Char.ofNat 233, by decide, by decide⟩),
    c4_char_byte_mismatch.2.1 ['a'] [] 'x' (by decide) (by decide),
    c4_char_byte_mismatch.2.2 ['a', Char.ofNat 233] (by decide)
      ⟨Char.ofNat 233, by decide, by decide⟩
      ⟨['a', Char.ofNat 233, '('], 2, none, none⟩ rfl⟩

theorem scan_pe_pres (rest : List Char) (i pe : Nat) (cs ce bs : Option Nat) :
    (scan rest i (some pe) cs ce bs).1 = some pe := by
  induction rest generalizing i cs ce bs with
  | nil => rfl
  | cons c r ih =>
    cases cs with
    | none =>
      simp only [scan]
      exact ih (i + 1) _ _ _
    | some cs' =>
      cases ce with
      | none =>
        simp only [scan]
        exact ih (i + 1) _ _ _
      | some ce' =>
        cases bs with
        | none =>
          by_cases hw : isRustWhitespace c
          · simp only [scan, hw, if_true]
            exact ih (i + 1) _ _ _
          · simp [scan, hw]
        | some b =>
          simp only [scan]
          exact ih (i + 1) _ _ _

/-- C7: a body span that fails the JSON parse makes get_body return None,
and a malformed JSON body never makes parse itself fail; in particular the
text hello () not_valid_json parses and its body accessor returns None. -/
theorem c7_get_body_none_on_bad_json :
    (∀ (m : SocketMessage) (i : Nat) (s : List Char), m.body_start = some i →
      byteSlice m.text i (byteLen m.text) = some s → from_str s = none →
      getBody m = some none) ∧
    parse (("hello () not_valid_json".toList)) =
      Except.ok ⟨("hello () not_valid_json".toList), 6, some (7, 7), some 9⟩ ∧
    getBody ⟨("hello () not_valid_json".toList), 6, some (7, 7), some 9⟩ = some none := by
  refine ⟨?_, rfl, rfl⟩
  intro m i s h1 h2 h3
  simp [getBody, h1, h2, h3]

/-- C7 witness: the general body statement applied to the parsed message of
hello () not_valid_json. -/
theorem c7_witness :
    getBody ⟨("hello () not_valid_json".toList), 6, some (7, 7), some 9⟩ = some none :=
  c7_get_body_none_on_bad_json.1 ⟨("hello () not_valid_json".toList), 6, some (7, 7), some 9⟩
    9 ("not_valid_json".toList) rfl rfl rfl

/-- C8: the empty text and a text starting with an opening parenthesis fail
with EmptyPrefixNotAllowed, an unterminated context fails with
ExpectedClosingContextParen, and every parse either succeeds or fails with
one of exactly these two errors. -/
theorem c8_parse_error_behaviour :
    parse ([] : List Char) = Except.error SocketMessageError.EmptyPrefixNotAllowed ∧
    parse (['(']) = Except.error SocketMessageError.EmptyPrefixNotAllowed ∧
    parse (("prefix(unterminated".toList)) =
      Except.error SocketMessageError.ExpectedClosingContextParen ∧
    ∀ t : List Char, (∃ m, parse t = Except.ok m) ∨
      parse t = Except.error SocketMessageError.EmptyPrefixNotAllowed ∨
      parse t = Except.error SocketMessageError.ExpectedClosingContextParen := by
  refine ⟨rfl, rfl, rfl, ?_⟩
  intro t
  rcases hp : parse t with e | m
  · cases e with
    | EmptyPrefixNotAllowed => exact Or.inr (Or.inl rfl)
    | ExpectedClosingContextParen => exact Or.inr (Or.inr rfl)
  · exact Or.inl ⟨m, rfl⟩

/-- C10 (amended): build and build_string return Ok for every prefix,
context and body, including an empty prefix, whose built message has an
empty prefix accessor; the rebuilt text reparses with EmptyPrefixNotAllowed
whenever a context is present or both context and body are absent — but not
when the context is absent and a body is present, in which case the text
starts with a space rather than an opening parenthesis. -/
theorem c10_builder_never_validates :
    (∀ (pre : List Char) (context : Option (List Char)) (body : Option Json),
      build pre context body = Except.ok (buildMsg pre context body) ∧
      buildString pre context body = Except.ok (buildMsg pre context body).text) ∧
    (∀ (context : Option (List Char)) (body : Option Json),
      getPrefixChars (buildMsg [] context body) = some []) ∧
    (∀ (C : List Char) (body : Option Json),
      parse ((buildMsg [] (some C) body).text) =
        Except.error SocketMessageError.EmptyPrefixNotAllowed) ∧
    parse ((buildMsg [] none none).text) =
      Except.error SocketMessageError.EmptyPrefixNotAllowed := by
  refine ⟨fun pre context body => ⟨rfl, rfl⟩, ?_, ?_, rfl⟩
  · intro context body
    have hz : (buildMsg [] context body).prefix_end = 0 := by
      cases context <;> cases body <;> simp [buildMsg, byteLen]
    simp [getPrefixChars, hz, byteSlice_zero, byteTake_zero]
  · intro C body
    rw [buildMsg_text_ctx]
    rw [show ([] : List Char) ++ '(' :: (C ++ ')' :: builtBodyPart body) =
      '(' :: (C ++ ')' :: builtBodyPart body) from by simp]
    unfold parse
    rw [show (0 : Nat) = 0 from rfl]
    rcases hs : scan (C ++ ')' :: builtBodyPart body) 1 (some 0) none none none with
      ⟨pe, cs, ce, bs⟩
    have hpe := scan_pe_pres (C ++ ')' :: builtBodyPart body) 1 0 none none none
    rw [hs] at hpe
    rw [scan_open, hs]
    simp only at hpe
    simp [hpe]

/-- C10 counterexample: building with an empty prefix, no context and the
body 1 succeeds, and its serialized text reparses successfully (the whole
text becomes the prefix) instead of failing with EmptyPrefixNotAllowed. -/
theorem c10_counterexample :
    build ([] : List Char) none (some (Json.num 1)) =
      Except.ok (buildMsg [] none (some (Json.num 1))) ∧
    parse ((buildMsg [] none (some (Json.num 1))).text) =
      Except.ok ⟨[' ', '1'], 2, none, none⟩ :=
  ⟨rfl, rfl⟩

/-- C1: contrary to the claim, the timeout-guarded operation never returns a
Connect event: next_event_with_timeout races the stub next_event, which
returns None immediately without reading the socket, so the call returns
None for every select outcome and the pending connection details are never
consumed (the state is returned unchanged). -/
theorem c1_never_connect (b : Bool) (conn : Connection) :
    (nextEventWithTimeout b conn).1 = none ∧
    (nextEventWithTimeout b conn).2.1 = conn := by
  cases b <;> exact ⟨rfl, rfl⟩

/-- C2: when the timer fires first, next_event_with_timeout closes the
session with the inactivity reason and returns no event; when the read
completes first, its result is returned and no inactivity close occurs. -/
theorem c2_timeout_race (conn : Connection) :
    nextEventWithTimeout true conn = (none, conn, [SocketAction.close inactivityReason]) ∧
    nextEventWithTimeout false conn = ((nextEvent conn).1, (nextEvent conn).2, []) ∧
    inactivityReason = (("Connection closed due to inactivity." ++
      " When another operation is necessary, reconnect").toList) :=
  ⟨rfl, rfl, rfl⟩

theorem afterPin_body_none (conn : Connection) (sm : SocketMessage)
    (rest : List SocketRead) (h : getBody sm = some none) :
    afterPin conn sm rest = some (none, conn, rest, [SocketAction.close bodyReason]) := by
  simp [afterPin, h]

theorem afterPin_body_some (conn : Connection) (sm : SocketMessage)
    (rest : List SocketRead) (b : Json) (h : getBody sm = some (some b)) :
    afterPin conn sm rest = some (some b, conn, rest, []) := by
  simp [afterPin, h]

theorem loop_last_value_pres (stream : List SocketRead) (conn : Connection)
    (r : Option Json × Connection × List SocketRead × List SocketAction)
    (h : nextSocketEventLoop conn stream = some r) :
    r.2.1.last_value = conn.last_value := by
  have hns : ¬ (eventChars = syncChars) := by decide
  induction stream generalizing conn r with
  | nil =>
    simp only [nextSocketEventLoop, Option.some.injEq] at h
    rw [← h]
  | cons hd rest ih =>
    cases hd with
    | readErr =>
      simp only [nextSocketEventLoop, Option.some.injEq] at h
      rw [← h]
    | frame msg =>
      cases msg with
      | Ping => exact ih conn r h
      | Pong => exact ih conn r h
      | Close =>
        simp only [nextSocketEventLoop, Option.some.injEq] at h
        rw [← h]
      | Binary =>
        simp only [nextSocketEventLoop, Option.some.injEq] at h
        rw [← h]
      | Text text =>
        rcases hp : parse text with e | sm
        · simp only [nextSocketEventLoop, hp, Option.some.injEq] at h
          rw [← h]
        · rcases hpf : getPrefixChars sm with _ | pfx
          · simp only [nextSocketEventLoop, hp, hpf] at h
            exact absurd h (by simp)
          · by_cases hsync : pfx = syncChars
            · rcases hlv : conn.last_value with _ | V
              · simp only [nextSocketEventLoop, hp, hpf, hsync, if_true, hlv] at h
                rw [ih conn r h, hlv]
              · simp only [nextSocketEventLoop, hp, hpf, hsync, if_true, hlv] at h
                rcases Option.map_eq_some'.mp h with ⟨r', hr', hrr⟩
                have hlv' := ih _ r' hr'
                rw [← hrr]
                simp only [send] at hlv'
                simp [hlv', hlv]
            · by_cases hev : pfx = eventChars
              · rcases hg : getContext sm with _ | octx
                · simp only [nextSocketEventLoop, hp, hpf, hsync, hns, if_false, hev,
                    if_true, hg] at h
                  exact absurd h (by simp)
                · cases octx with
                  | none =>
                    rcases hb : getBody sm with _ | ob
                    · simp only [nextSocketEventLoop, hp, hpf, hsync, hns, if_false, hev,
                        if_true, hg, afterPin, hb] at h
                      exact absurd h (by simp)
                    · cases ob with
                      | none =>
                        simp only [nextSocketEventLoop, hp, hpf, hsync, hns, if_false, hev,
                          if_true, hg, afterPin_body_none _ sm rest hb,
                          Option.some.injEq] at h
                        rw [← h]
                      | some bdy =>
                        simp only [nextSocketEventLoop, hp, hpf, hsync, hns, if_false, hev,
                          if_true, hg, afterPin_body_some _ sm rest bdy hb,
                          Option.some.injEq] at h
                        rw [← h]
                  | some ctx =>
                    rcases hu : uuidParseStr ctx with _ | u
                    · simp only [nextSocketEventLoop, hp, hpf, hsync, hns, if_false, hev,
                        if_true, hg, hu, Option.some.injEq] at h
                      rw [← h]
                    · rcases hb : getBody sm with _ | ob
                      · simp only [nextSocketEventLoop, hp, hpf, hsync, hns, if_false, hev,
                          if_true, hg, hu, afterPin, hb] at h
                        exact absurd h (by simp)
                      · cases ob with
                        | none =>
                          simp only [nextSocketEventLoop, hp, hpf, hsync, hns, if_false, hev,
                            if_true, hg, hu, afterPin_body_none _ sm rest hb,
                            Option.some.injEq] at h
                          rw [← h]
                        | some bdy =>
                          simp only [nextSocketEventLoop, hp, hpf, hsync, hns, if_false, hev,
                            if_true, hg, hu, afterPin_body_some _ sm rest bdy hb,
                            Option.some.injEq] at h
                          rw [← h]
              · simp only [nextSocketEventLoop, hp, hpf, hsync, if_false, hev,
                  Option.some.injEq] at h
                rw [← h]

/-- C9: after send the stored last_value is exactly the sent value and the
single outbound frame is the model message carrying the stringified pin (or
the empty string) and the value; and no other operation changes last_value:
next_socket_event (including the sync replay, which re-stores the same
value) and the timeout-guarded operation leave it unchanged. -/
theorem c9_send_last_value :
    (∀ (conn : Connection) (v : Json), (send conn v).1.last_value = some v) ∧
    (∀ (conn : Connection) (v : Json), (send conn v).2 =
      [SocketAction.sendText
        (buildMsg modelChars (some (pinString conn.client_pin)) (some v)).text]) ∧
    (∀ (conn : Connection) (stream : List SocketRead)
      (r : Option Event × Connection × List SocketRead × List SocketAction),
      nextSocketEvent conn stream = some r → r.2.1.last_value = conn.last_value) ∧
    (∀ (b : Bool) (conn : Connection),
      (nextEventWithTimeout b conn).2.1.last_value = conn.last_value) := by
  refine ⟨fun conn v => rfl, fun conn v => rfl, ?_, ?_⟩
  · intro conn stream r h
    rcases hcd : conn.connection_details with _ | details
    · simp only [nextSocketEvent, hcd] at h
      rcases Option.map_eq_some'.mp h with ⟨r', hr', hrr⟩
      have := loop_last_value_pres stream conn r' hr'
      rw [← hrr]
      exact this
    · simp only [nextSocketEvent, hcd, Option.some.injEq] at h
      rw [← h]
  · intro b conn
    cases b <;> rfl

/-- C9 witness: the preservation statement applied to a session with no
pending details reading a single close frame. -/
theorem c9_witness :
    ((none, (⟨none, some (Json.num 7), none⟩ : Connection), ([] : List SocketRead),
        ([] : List SocketAction)) : Option Event × Connection × List SocketRead ×
        List SocketAction).2.1.last_value =
      (⟨none, some (Json.num 7), none⟩ : Connection).last_value :=
  c9_send_last_value.2.2.1 ⟨none, some (Json.num 7), none⟩ [SocketRead.frame Message.Close]
    (none, ⟨none, some (Json.num 7), none⟩, [], []) rfl

/-- Pin resolution performed by the event arm: the context, when present,
must parse as an identifier; an absent context yields an absent pin; the
outer none is the failure case that closes the session. -/
def pinOfContext (sm : SocketMessage) : Option (Option Uuid) :=
  match getContext sm with
  | some (some c) => (uuidParseStr c).map some
  | some none => some none
  | none => none

/-- C5: in the decode loop an event text frame with a context that does not
parse as an identifier closes the session with the UUID reason and yields no
event; otherwise the parsed pin (or its absence) replaces the stored pin,
after which a missing body closes the session with the body reason yielding
no event, while a present body yields Update of that body. -/
theorem c5_event_arm (conn : Connection) (text : List Char) (sm : SocketMessage)
    (rest : List SocketRead)
    (hcd : conn.connection_details = none)
    (hp : parse text = Except.ok sm)
    (hpfx : getPrefixChars sm = some eventChars) :
    (∀ ctx, getContext sm = some (some ctx) → uuidParseStr ctx = none →
      nextSocketEvent conn (SocketRead.frame (Message.Text text) :: rest) =
        some (none, conn, rest, [SocketAction.close uuidReason])) ∧
    (∀ pin, pinOfContext sm = some pin →
      ((getBody sm = some none →
        nextSocketEvent conn (SocketRead.frame (Message.Text text) :: rest) =
          some (none, { conn with client_pin := pin }, rest,
            [SocketAction.close bodyReason])) ∧
      (∀ b, getBody sm = some (some b) →
        nextSocketEvent conn (SocketRead.frame (Message.Text text) :: rest) =
          some (some (Event.Update b), { conn with client_pin := pin }, rest, [])))) := by
  have hns : ¬ (eventChars = syncChars) := by decide
  constructor
  · intro ctx hctx hu
    simp [nextSocketEvent, hcd, nextSocketEventLoop, hp, hpfx, hns, hctx, hu]
  · intro pin hpin
    constructor
    · intro hb
      rcases hg : getContext sm with _ | octx
      · simp [pinOfContext, hg] at hpin
      · cases octx with
        | none =>
          simp only [pinOfContext, hg, Option.some.injEq] at hpin
          subst hpin
          simp [nextSocketEvent, hcd, nextSocketEventLoop, hp, hpfx, hns, hg,
            afterPin_body_none _ sm rest hb]
        | some ctx =>
          simp only [pinOfContext, hg] at hpin
          rcases Option.map_eq_some'.mp hpin with ⟨u, hu, hupin⟩
          subst hupin
          simp [nextSocketEvent, hcd, nextSocketEventLoop, hp, hpfx, hns, hg, hu,
            afterPin_body_none _ sm rest hb]
    · intro b hb
      rcases hg : getContext sm with _ | octx
      · simp [pinOfContext, hg] at hpin
      · cases octx with
        | none =>
          simp only [pinOfContext, hg, Option.some.injEq] at hpin
          subst hpin
          simp [nextSocketEvent, hcd, nextSocketEventLoop, hp, hpfx, hns, hg,
            afterPin_body_some _ sm rest b hb]
        | some ctx =>
          simp only [pinOfContext, hg] at hpin
          rcases Option.map_eq_some'.mp hpin with ⟨u, hu, hupin⟩
          subst hupin
          simp [nextSocketEvent, hcd, nextSocketEventLoop, hp, hpfx, hns, hg, hu,
            afterPin_body_some _ sm rest b hb]

/-- C5 witness: the event arm evaluated on the text event(xyz) 1, whose
context xyz is not a valid identifier, on a session with no pending
details. -/
theorem c5_witness :
    nextSocketEvent ⟨none, none, none⟩
        [SocketRead.frame (Message.Text (("event(xyz) 1".toList)))] =
      some (none, ⟨none, none, none⟩, [], [SocketAction.close uuidReason]) :=
  (c5_event_arm ⟨none, none, none⟩ (("event(xyz) 1".toList))
      ⟨("event(xyz) 1".toList), 5, some (6, 9), some 11⟩ [] rfl rfl rfl).1
    (("xyz".toList)) rfl rfl

/-- C6: in the decode loop a sync text frame never yields an Update: with no
previously sent value the loop just continues on the same state with no
outbound frame; with a previously sent value V exactly one outbound model
frame carrying V is written, the state (including last_value, still V) is
unchanged, and the loop continues. -/
theorem c6_sync_arm (conn : Connection) (text : List Char) (sm : SocketMessage)
    (rest : List SocketRead)
    (hcd : conn.connection_details = none)
    (hp : parse text = Except.ok sm)
    (hpfx : getPrefixChars sm = some syncChars) :
    (conn.last_value = none →
      nextSocketEvent conn (SocketRead.frame (Message.Text text) :: rest) =
        nextSocketEvent conn rest) ∧
    (∀ V, conn.last_value = some V →
      nextSocketEvent conn (SocketRead.frame (Message.Text text) :: rest) =
        (nextSocketEvent conn rest).map (fun r => (r.1, r.2.1, r.2.2.1,
          SocketAction.sendText
            (buildMsg modelChars (some (pinString conn.client_pin)) (some V)).text ::
              r.2.2.2))) := by
  constructor
  · intro hlv
    simp [nextSocketEvent, hcd, nextSocketEventLoop, hp, hpfx, hlv]
  · intro V hlv
    have hconn : ({ conn with last_value := some V } : Connection) = conn := by
      cases conn with
      | mk cd lv cp =>
        simp only at hlv
        rw [hlv]
    have step : nextSocketEventLoop conn (SocketRead.frame (Message.Text text) :: rest) =
        (nextSocketEventLoop conn rest).map (fun r => (r.1, r.2.1, r.2.2.1,
          SocketAction.sendText
            (buildMsg modelChars (some (pinString conn.client_pin)) (some V)).text ::
              r.2.2.2)) := by
      simp only [nextSocketEventLoop, hp, hpfx]
      rw [if_pos trivial]
      simp only [hlv, send]
      rw [hconn]
      cases hres : nextSocketEventLoop conn rest with
      | none => rfl
      | some r => rfl
    simp only [nextSocketEvent, hcd, step, Option.map_map]
    cases hres : nextSocketEventLoop conn rest with
    | none => rfl
    | some r => rfl

/-- C6 witness: the sync arm evaluated on a session that previously sent the
value 1: one model frame is written and the state is unchanged. -/
theorem c6_witness :
    nextSocketEvent ⟨none, some (Json.num 1), none⟩
        [SocketRead.frame (Message.Text (("sync".toList)))] =
      (nextSocketEvent ⟨none, some (Json.num 1), none⟩ []).map
        (fun r => (r.1, r.2.1, r.2.2.1,
          SocketAction.sendText
            (buildMsg modelChars
              (some (pinString (⟨none, some (Json.num 1), none⟩ : Connection).client_pin))
              (some (Json.num 1))).text :: r.2.2.2)) :=
  (c6_sync_arm ⟨none, some (Json.num 1), none⟩ (("sync".toList))
      ⟨("sync".toList), 4, none, none⟩ [] rfl rfl rfl).2 (Json.num 1) rfl
